import Mathlib

/-!
Verification of the core game-logic of the `my-rts` repository, shallowly
embedded in Lean 4.

Numeric conventions: JavaScript numbers are modelled as rationals; the few
square roots the movement code takes are modelled by passing the numeric
square-root primitive as an explicit function parameter (all universally
quantified theorems hold for every such function, and the concrete runs only
ever take square roots of perfect squares, where the supplied `demoSqrt`
table is exact).  Rendering, meshes, DOM and animation code is cosmetic and
omitted.
-/

set_option maxRecDepth 4000

/-! ## Vectors (THREE.Vector3, the operations the core uses) -/

/-- A 3-d vector with rational coordinates (models `THREE.Vector3`). -/
structure Vec3 where
  x : ℚ
  y : ℚ
  z : ℚ
  deriving DecidableEq

/-- Component-wise subtraction (models `Vector3.subVectors(a, b)`). -/
def vsub (a b : Vec3) : Vec3 := ⟨a.x - b.x, a.y - b.y, a.z - b.z⟩

/-- Component-wise addition (models `Vector3.add`). -/
def vadd (a b : Vec3) : Vec3 := ⟨a.x + b.x, a.y + b.y, a.z + b.z⟩

/-- Scalar multiplication (models `Vector3.multiplyScalar`). -/
def vscale (c : ℚ) (v : Vec3) : Vec3 := ⟨c * v.x, c * v.y, c * v.z⟩

/-- Squared Euclidean norm of a vector. -/
def norm2 (v : Vec3) : ℚ := v.x * v.x + v.y * v.y + v.z * v.z

/-- The square-root values used by the concrete demonstration runs below.
Every universally quantified theorem takes the numeric square-root primitive
as a parameter and holds for every such function; the demonstration runs only
ever take the square roots of `0`, `64/25` and `8464/25`, for which this
table returns exactly the true square roots (`0`, `8/5` and `92/5`). -/
def demoSqrt (q : ℚ) : ℚ :=
  if q = 64/25 then 8/5 else if q = 8464/25 then 92/5 else 0

/-- Length of a vector, given the numeric square-root primitive
(models `Vector3.length()`). -/
def vlen (s : ℚ → ℚ) (v : Vec3) : ℚ := s (norm2 v)

/-- Distance between two points (models `Vector3.distanceTo`). -/
def vdist (s : ℚ → ℚ) (a b : Vec3) : ℚ := s (norm2 (vsub a b))

/-- Normalization (models `Vector3.normalize()`: THREE divides by
`length() || 1`, so the zero vector is returned unchanged). -/
def vnormalize (s : ℚ → ℚ) (v : Vec3) : Vec3 :=
  let len := vlen s v
  if len = 0 then v else vscale (1 / len) v

/-! ## ResourceManager (`src/core/ResourceManager.ts`) -/

/-- The six resource kinds of `src/types/ResourceTypes.ts`. -/
inductive ResourceType
  | wood
  | food
  | stone
  | gold
  | iron
  | tools
  deriving DecidableEq

/-- `ResourceInventory`: one quantity per resource kind. -/
structure ResourceInventory where
  wood : ℚ
  food : ℚ
  stone : ℚ
  gold : ℚ
  iron : ℚ
  tools : ℚ
  deriving DecidableEq

/-- Read one kind's quantity (models `this._resources[type]`). -/
def ResourceInventory.get (inv : ResourceInventory) : ResourceType → ℚ
  | .wood => inv.wood
  | .food => inv.food
  | .stone => inv.stone
  | .gold => inv.gold
  | .iron => inv.iron
  | .tools => inv.tools

/-- Write one kind's quantity (models assignment to `this._resources[type]`). -/
def ResourceInventory.set (inv : ResourceInventory) (t : ResourceType) (v : ℚ) :
    ResourceInventory :=
  match t with
  | .wood => { inv with wood := v }
  | .food => { inv with food := v }
  | .stone => { inv with stone := v }
  | .gold => { inv with gold := v }
  | .iron => { inv with iron := v }
  | .tools => { inv with tools := v }

/-- The inventory the `ResourceManager` constructor builds. -/
def initialInventory : ResourceInventory := ⟨100, 100, 50, 0, 0, 0⟩

/-- `ResourceCost`: a partial mapping; `none` models an absent property. -/
structure ResourceCost where
  wood : Option ℚ
  food : Option ℚ
  stone : Option ℚ
  gold : Option ℚ
  iron : Option ℚ
  tools : Option ℚ
  deriving DecidableEq

/-- The cost with no kinds specified. -/
def emptyCost : ResourceCost := ⟨none, none, none, none, none, none⟩

/-- `ResourceManager.addResource`. -/
def addResource (inv : ResourceInventory) (t : ResourceType) (amount : ℚ) :
    ResourceInventory :=
  inv.set t (inv.get t + amount)

/-- `ResourceManager.removeResource`: returns `false` and leaves the inventory
unchanged if the current amount is below `amount`, otherwise subtracts. -/
def removeResource (inv : ResourceInventory) (t : ResourceType) (amount : ℚ) :
    Bool × ResourceInventory :=
  if inv.get t < amount then (false, inv)
  else (true, inv.set t (inv.get t - amount))

/-- One `hasEnough` loop iteration: the source skips the check when the
entry's amount is falsy (`if (amount && this._resources[type] < amount)`). -/
def costOk (q : ℚ) (c : Option ℚ) : Bool :=
  match c with
  | none => true
  | some a => if a = 0 then true else decide (¬ q < a)

/-- `ResourceManager.hasEnough`. -/
def hasEnough (inv : ResourceInventory) (c : ResourceCost) : Bool :=
  costOk inv.wood c.wood && costOk inv.food c.food && costOk inv.stone c.stone &&
    costOk inv.gold c.gold && costOk inv.iron c.iron && costOk inv.tools c.tools

/-- One `deductCost` loop iteration: subtract when the amount is truthy
(`if (amount) { this._resources[type] -= amount; }`). -/
def deductField (q : ℚ) (c : Option ℚ) : ℚ :=
  match c with
  | none => q
  | some a => if a = 0 then q else q - a

/-- `ResourceManager.deductCost`: checks `hasEnough` first; subtracts every
specified kind only when the check passes. -/
def deductCost (inv : ResourceInventory) (c : ResourceCost) :
    Bool × ResourceInventory :=
  if hasEnough inv c then
    (true,
      ⟨deductField inv.wood c.wood, deductField inv.food c.food,
       deductField inv.stone c.stone, deductField inv.gold c.gold,
       deductField inv.iron c.iron, deductField inv.tools c.tools⟩)
  else (false, inv)

/-- Spec-side description of a successful multi-kind deduction: every
specified kind's amount is subtracted (absent kinds count as zero). -/
def subtractCostSpec (inv : ResourceInventory) (c : ResourceCost) :
    ResourceInventory :=
  ⟨inv.wood - (c.wood.getD 0), inv.food - (c.food.getD 0),
   inv.stone - (c.stone.getD 0), inv.gold - (c.gold.getD 0),
   inv.iron - (c.iron.getD 0), inv.tools - (c.tools.getD 0)⟩

/-! ## HarvestableNode (`Tree`, `src/entities/resources/Tree.ts`) -/

/-- The state of a `Tree` relevant to the core (meshes and outlines omitted). -/
structure TreeS where
  pos : Vec3
  woodAmount : ℚ
  maxWoodAmount : ℚ
  isBeingHarvested : Bool
  deriving DecidableEq

/-- `Tree.harvest`: clamps the request to the remaining amount, subtracts the
clamped amount and returns it (the `_updateAppearance` call is cosmetic). -/
def TreeS.harvest (t : TreeS) (amount : ℚ) : ℚ × TreeS :=
  let harvestedAmount := min amount t.woodAmount
  (harvestedAmount, { t with woodAmount := t.woodAmount - harvestedAmount })

/-- `Tree.isDepleted`: `remaining <= 0`. -/
def TreeS.isDepleted (t : TreeS) : Bool := decide (t.woodAmount ≤ 0)

/-- Remaining wood after a whole sequence of harvest requests. -/
def harvestFold (t : TreeS) (reqs : List ℚ) : TreeS :=
  reqs.foldl (fun tr r => (tr.harvest r).2) t

/-! ## Worker (`src/entities/units/Worker.ts`, movement from `Unit.ts`)

Trees live on a heap; the worker holds references to them.  The heap is
modelled as a total map from tree identifiers to tree states.  The injected
`_nearbyTreesFinder` callback is external input: its result (or absence) is
supplied as a parameter of each update step, which covers every possible
callback behavior. -/

/-- Identifier of a tree on the heap. -/
abbrev TreeId := ℕ

/-- The heap of trees. -/
abbrev TreeStore := TreeId → TreeS

/-- Replace one tree on the heap (models mutating a referenced `Tree`). -/
def setTree (st : TreeStore) (i : TreeId) (t : TreeS) : TreeStore :=
  fun j => if j = i then t else st j

/-- `MAX_CARRY_CAPACITY = 10` (maximum resources per type). -/
def MAX_CARRY_CAPACITY : ℚ := 10

/-- `HARVEST_RATE = 5` resources per second. -/
def HARVEST_RATE : ℚ := 5

/-- `HARVEST_RANGE = 2`. -/
def HARVEST_RANGE : ℚ := 2

/-- `BASE_DELIVERY_RANGE = 4`. -/
def BASE_DELIVERY_RANGE : ℚ := 4

/-- `WORKER_CONFIG.moveSpeed = 5` units per second. -/
def WORKER_MOVE_SPEED : ℚ := 5

/-- `WORKER_CONFIG.trainTime = 5` seconds. -/
def WORKER_TRAIN_TIME : ℚ := 5

/-- The `WorkerState` enum. -/
inductive WorkerState
  | idle
  | movingToResource
  | harvesting
  | returningToBase
  | delivering
  deriving DecidableEq

/-- The `CarriedResources` record. -/
structure CarriedResources where
  wood : ℚ
  food : ℚ
  stone : ℚ
  deriving DecidableEq

/-- The worker's state: the `Worker` fields plus the movement fields it
inherits from `Unit` (position, `_isMoving`, `_targetPosition`).  The home
base is represented by its (immutable) position, the only thing the worker
reads from it. -/
structure WorkerS where
  state : WorkerState
  targetResource : Option TreeId
  assignedResource : Option TreeId
  homeBase : Option Vec3
  carriedResources : CarriedResources
  harvestTimer : ℚ
  pos : Vec3
  isMoving : Bool
  targetPosition : Option Vec3
  deriving DecidableEq

/-- The `Worker` constructor. -/
def freshWorker (p : Vec3) : WorkerS :=
  ⟨WorkerState.idle, none, none, none, ⟨0, 0, 0⟩, 0, p, false, none⟩

/-- `Unit.moveTo`. -/
def WorkerS.moveTo (w : WorkerS) (t : Vec3) : WorkerS :=
  { w with targetPosition := some t, isMoving := true }

/-- The movement part of `Unit.update`: step toward the target by
`moveSpeed * deltaTime`, snapping onto it when within reach. -/
def unitUpdate (s : ℚ → ℚ) (dt : ℚ) (w : WorkerS) : WorkerS :=
  if w.isMoving then
    match w.targetPosition with
    | some t =>
      let direction := vnormalize s (vsub t w.pos)
      let distance := vdist s w.pos t
      let moveDistance := WORKER_MOVE_SPEED * dt
      if distance ≤ moveDistance then
        { w with pos := t, isMoving := false, targetPosition := none }
      else
        { w with pos := vadd w.pos (vscale moveDistance direction) }
    | none => w
  else w

/-- The repeated "calculate a position near the tree" block: offset from the
node's position toward the unit by `HARVEST_RANGE * 0.8`, with the default
direction `(1, 0, 0)` when the normalized direction has zero length. -/
def approachPoint (s : ℚ → ℚ) (p rpos : Vec3) : Vec3 :=
  let direction := vnormalize s (vsub p rpos)
  let direction := if vlen s direction = 0 then (⟨1, 0, 0⟩ : Vec3) else direction
  vadd rpos (vscale (HARVEST_RANGE * (4/5)) direction)

/-- `Worker._moveToBaseDeliveryPoint`'s target: offset from the base by
`BASE_DELIVERY_RANGE` toward the unit (no zero-length guard in the source). -/
def deliveryPoint (s : ℚ → ℚ) (p basePos : Vec3) : Vec3 :=
  vadd basePos (vscale BASE_DELIVERY_RANGE (vnormalize s (vsub p basePos)))

/-- `Worker.harvestResource(resource, homeBase)`. -/
def harvestResourceOp (s : ℚ → ℚ) (w : WorkerS) (tid : TreeId) (basePos : Vec3)
    (st : TreeStore) : WorkerS :=
  let w2 := { w with targetResource := some tid, assignedResource := some tid,
                     homeBase := some basePos,
                     state := WorkerState.movingToResource }
  w2.moveTo (approachPoint s w2.pos (st tid).pos)

/-- `Worker.stopTask`. -/
def stopTaskOp (w : WorkerS) (st : TreeStore) : WorkerS × TreeStore :=
  let st2 := match w.targetResource with
    | some tid => setTree st tid { st tid with isBeingHarvested := false }
    | none => st
  ({ w with targetResource := none, assignedResource := none,
            state := WorkerState.idle, targetPosition := none,
            isMoving := false }, st2)

/-- `Worker.collectCarriedResources`: returns the carried amounts and resets
the inventory. -/
def collectCarriedResources (w : WorkerS) : CarriedResources × WorkerS :=
  (w.carriedResources, { w with carriedResources := ⟨0, 0, 0⟩ })

/-- The "found a nearby tree, go harvest it" block shared by the depleted
re-seek and the post-delivery re-seek. -/
def retargetTree (s : ℚ → ℚ) (w : WorkerS) (nid : TreeId) (st : TreeStore) :
    WorkerS :=
  let w2 := { w with targetResource := some nid, assignedResource := some nid,
                     state := WorkerState.movingToResource }
  w2.moveTo (approachPoint s w2.pos (st nid).pos)

/-- The `MOVING_TO_RESOURCE` case of `Worker.update`. -/
def stepMovingToResource (s : ℚ → ℚ) (w : WorkerS) (st : TreeStore) :
    WorkerS × TreeStore :=
  if w.isMoving = false then
    match w.targetResource with
    | some tid =>
      if vdist s w.pos (st tid).pos ≤ HARVEST_RANGE then
        ({ w with state := WorkerState.harvesting },
         setTree st tid { st tid with isBeingHarvested := true })
      else (w, st)
    | none => (w, st)
  else (w, st)

/-- The `HARVESTING` case of `Worker.update`: on a depleted target, clear the
flag and re-seek; otherwise accumulate the harvest timer and, once it reaches
one second, harvest `floor(timer * HARVEST_RATE)`, reset the timer to zero,
add the yield to carried wood, and return to base when the carried wood has
reached `MAX_CARRY_CAPACITY`. -/
def stepHarvesting (s : ℚ → ℚ) (dt : ℚ) (finder : Option TreeId) (w : WorkerS)
    (st : TreeStore) : WorkerS × TreeStore :=
  match w.targetResource with
  | none => (w, st)
  | some tid =>
    let tree := st tid
    if tree.isDepleted = true then
      let st2 := setTree st tid { tree with isBeingHarvested := false }
      match finder with
      | some nid => (retargetTree s w nid st2, st2)
      | none =>
        if 0 < w.carriedResources.wood then
          match w.homeBase with
          | some bp =>
            (({ w with state := WorkerState.returningToBase }).moveTo
              (deliveryPoint s w.pos bp), st2)
          | none =>
            ({ w with state := WorkerState.idle, targetResource := none,
                      assignedResource := none }, st2)
        else
          ({ w with state := WorkerState.idle, targetResource := none,
                    assignedResource := none }, st2)
    else
      let timer := w.harvestTimer + dt
      if 1 ≤ timer then
        let harvestAmount : ℚ := ((⌊timer * HARVEST_RATE⌋ : ℤ) : ℚ)
        let hv := tree.harvest harvestAmount
        let st2 := setTree st tid hv.2
        let w2 := { w with harvestTimer := 0,
                           carriedResources := { w.carriedResources with
                             wood := w.carriedResources.wood + hv.1 } }
        if MAX_CARRY_CAPACITY ≤ w2.carriedResources.wood then
          let st3 := setTree st2 tid { hv.2 with isBeingHarvested := false }
          match w2.homeBase with
          | some bp =>
            (({ w2 with state := WorkerState.returningToBase }).moveTo
              (deliveryPoint s w2.pos bp), st3)
          | none => ({ w2 with state := WorkerState.idle }, st3)
        else (w2, st2)
      else ({ w with harvestTimer := timer }, st)

/-- The `RETURNING_TO_BASE` case of `Worker.update`. -/
def stepReturningToBase (s : ℚ → ℚ) (w : WorkerS) (st : TreeStore) :
    WorkerS × TreeStore :=
  if w.isMoving = false then
    match w.homeBase with
    | some bp =>
      if vdist s w.pos bp ≤ BASE_DELIVERY_RANGE then
        ({ w with state := WorkerState.delivering }, st)
      else (w, st)
    | none => (w, st)
  else (w, st)

/-- The `DELIVERING` case of `Worker.update`: return to the assigned resource
if it is still not depleted, otherwise re-seek via the finder, otherwise go
idle. -/
def stepDelivering (s : ℚ → ℚ) (finder : Option TreeId) (w : WorkerS)
    (st : TreeStore) : WorkerS × TreeStore :=
  match w.assignedResource with
  | some aid =>
    if (st aid).isDepleted = false then
      let w2 := { w with targetResource := some aid,
                         state := WorkerState.movingToResource }
      (w2.moveTo (approachPoint s w2.pos (st aid).pos), st)
    else
      match finder with
      | some nid => (retargetTree s w nid st, st)
      | none =>
        ({ w with state := WorkerState.idle, targetResource := none,
                  assignedResource := none }, st)
  | none =>
    match finder with
    | some nid => (retargetTree s w nid st, st)
    | none =>
      ({ w with state := WorkerState.idle, targetResource := none,
                assignedResource := none }, st)

/-- `Worker.update(deltaTime)`: the inherited movement step followed by the
harvesting state machine (the walking animation is cosmetic and omitted). -/
def workerUpdate (s : ℚ → ℚ) (dt : ℚ) (finder : Option TreeId) (w : WorkerS)
    (st : TreeStore) : WorkerS × TreeStore :=
  let w1 := unitUpdate s dt w
  match w1.state with
  | WorkerState.idle => (w1, st)
  | WorkerState.movingToResource => stepMovingToResource s w1 st
  | WorkerState.harvesting => stepHarvesting s dt finder w1 st
  | WorkerState.returningToBase => stepReturningToBase s w1 st
  | WorkerState.delivering => stepDelivering s finder w1 st

/-- The public worker operations an external driver can perform. -/
inductive WOp
  | assign (tid : TreeId) (basePos : Vec3)
  | update (dt : ℚ) (finder : Option TreeId)
  | collect
  | stop

/-- Apply one public operation to the worker and the tree heap. -/
def applyWOp (s : ℚ → ℚ) (p : WorkerS × TreeStore) (op : WOp) :
    WorkerS × TreeStore :=
  match op with
  | WOp.assign tid bp => (harvestResourceOp s p.1 tid bp p.2, p.2)
  | WOp.update dt finder => workerUpdate s dt finder p.1 p.2
  | WOp.collect => ((collectCarriedResources p.1).2, p.2)
  | WOp.stop => stopTaskOp p.1 p.2

/-- Run a sequence of public operations. -/
def runWOps (s : ℚ → ℚ) (p : WorkerS × TreeStore) (ops : List WOp) :
    WorkerS × TreeStore :=
  ops.foldl (applyWOp s) p


/-- The inductive invariant carried through every public worker operation:
an idle worker has no target and no assigned resource; a non-idle worker has
a home base; a harvesting worker has a target; and the carried food and stone
are zero. -/
def workerInv (w : WorkerS) : Prop :=
  (w.state = WorkerState.idle →
    w.targetResource = none ∧ w.assignedResource = none) ∧
  (w.state ≠ WorkerState.idle → w.homeBase ≠ none) ∧
  (w.state = WorkerState.harvesting → w.targetResource ≠ none) ∧
  (w.carriedResources.food = 0 ∧ w.carriedResources.stone = 0)


/-! ## Concrete demonstration runs

A worker spawned at the origin is assigned tree `0`, also at the origin, with
the home base at `(20, 0, 0)`.  The first update (`deltaTime = 2/5`) walks the
worker onto the approach point `(8/5, 0, 0)` and enters the Harvesting state;
the next update then crosses the one-second harvest threshold. -/

/-- A tree at the origin holding `wd` wood. -/
def treeAt (wd : ℚ) : TreeS := ⟨⟨0, 0, 0⟩, wd, wd, false⟩

/-- A heap whose trees all hold `wd` wood. -/
def storeOf (wd : ℚ) : TreeStore := fun _ => treeAt wd

/-- The home base position of the demonstration runs. -/
def basePos0 : Vec3 := ⟨20, 0, 0⟩

/-- Demonstration run for claim C4: assign, walk to the tree, then one
3-second update while harvesting a tree holding 30 wood. -/
def runC4 : WorkerS × TreeStore :=
  runWOps demoSqrt (freshWorker ⟨0, 0, 0⟩, storeOf 30)
    [WOp.assign 0 basePos0, WOp.update (2/5) none, WOp.update 3 none]

/-- Demonstration run for claim C5: as `runC4` but with a 1.3-second harvest
update against a tree holding 50 wood. -/
def runC5 : WorkerS × TreeStore :=
  runWOps demoSqrt (freshWorker ⟨0, 0, 0⟩, storeOf 50)
    [WOp.assign 0 basePos0, WOp.update (2/5) none, WOp.update (13/10) none]

/-- The state reached by the first two operations of `runC5`: harvesting,
timer zero. -/
def runC5mid : WorkerS × TreeStore :=
  runWOps demoSqrt (freshWorker ⟨0, 0, 0⟩, storeOf 50)
    [WOp.assign 0 basePos0, WOp.update (2/5) none]

/-- Demonstration run for claim C6: as `runC4` but the tree holds only 3
wood, so the 1-second harvest tick depletes it. -/
def runC6 : WorkerS × TreeStore :=
  runWOps demoSqrt (freshWorker ⟨0, 0, 0⟩, storeOf 3)
    [WOp.assign 0 basePos0, WOp.update (2/5) none, WOp.update 1 none]

/-! ## Base / ProductionQueue (`src/entities/buildings/Base.ts`)

The Base's training queue, ready flag and spawn operation.  The spawn
position computed by `_calculateSpawnPosition` uses `Math.random` and timed
clean-up of recent spawn points, which are outside a deterministic shallow
embedding; the spawn position is therefore supplied as a parameter — no claim
below depends on it. -/

/-- One entry of the Base's `_trainingQueue` (`{type, progress, totalTime}`;
the only kind is `worker`). -/
structure TrainingQueueItem where
  progress : ℚ
  totalTime : ℚ
  deriving DecidableEq

/-- The Base state the claims concern: training queue, ready flag, position
and rally point. -/
structure BaseS where
  trainingQueue : List TrainingQueueItem
  workerReadyToSpawn : Bool
  pos : Vec3
  rallyPoint : Vec3
  deriving DecidableEq

/-- The `Base` constructor: empty queue, flag clear, rally point 8 units to
the right. -/
def freshBase (p : Vec3) : BaseS := ⟨[], false, p, ⟨p.x + 8, p.y, p.z⟩⟩

/-- The training-queue part of `Base.update(deltaTime)`: when the queue is
non-empty and nothing is ready, the head accumulates the elapsed time, and
the ready flag is set once its progress reaches its total time (the flag
animation is cosmetic). -/
def baseUpdate (dt : ℚ) (b : BaseS) : BaseS :=
  match b.trainingQueue, b.workerReadyToSpawn with
  | currentTraining :: rest, false =>
    let c2 := { currentTraining with progress := currentTraining.progress + dt }
    { b with trainingQueue := c2 :: rest,
             workerReadyToSpawn :=
               if c2.totalTime ≤ c2.progress then true else false }
  | _, _ => b

/-- `Base.trainWorker`: append a fresh order with the worker's train time. -/
def trainWorkerOp (b : BaseS) : BaseS :=
  { b with trainingQueue := b.trainingQueue ++ [⟨0, WORKER_TRAIN_TIME⟩] }

/-- `Base.hasWorkerReady`. -/
def hasWorkerReady (b : BaseS) : Bool := b.workerReadyToSpawn

/-- `Base.spawnWorker`: pop the head order (if any), clear the ready flag,
construct a worker at the spawn position and send it to the rally point.
No readiness check is performed by the source. -/
def spawnWorker (b : BaseS) (spawnPos : Vec3) : BaseS × WorkerS :=
  ({ b with trainingQueue := b.trainingQueue.tail, workerReadyToSpawn := false },
   (freshWorker spawnPos).moveTo b.rallyPoint)

/-- The public Base operations the driver can perform. -/
inductive BOp
  | train
  | update (dt : ℚ)
  | spawn (spawnPos : Vec3)

/-- Apply one public Base operation. -/
def applyBOp (b : BaseS) (op : BOp) : BaseS :=
  match op with
  | BOp.train => trainWorkerOp b
  | BOp.update dt => baseUpdate dt b
  | BOp.spawn sp => (spawnWorker b sp).1

/-- Run a sequence of public Base operations. -/
def runBOps (b : BaseS) (ops : List BOp) : BaseS := ops.foldl applyBOp b

/-- The production-queue invariant: every order behind the head is untouched
(progress zero); every order carries the configured train time; and the ready
flag is set exactly when the head order's progress has reached its total
time. -/
def queueInv (b : BaseS) : Prop :=
  (∀ it ∈ b.trainingQueue.tail, it.progress = 0) ∧
  (∀ it ∈ b.trainingQueue, it.totalTime = WORKER_TRAIN_TIME) ∧
  (b.workerReadyToSpawn = true ↔
    ∃ current rest, b.trainingQueue = current :: rest ∧
      current.totalTime ≤ current.progress)

/-- The Base after training one worker and updating for 3 seconds: the order
is half-trained and nothing is ready. -/
def cexBase : BaseS := baseUpdate 3 (trainWorkerOp (freshBase ⟨0, 0, 0⟩))

/-! ## Theorems for claims C1, C2, C3 -/

theorem deductField_eq_sub (q : ℚ) (c : Option ℚ) :
    deductField q c = q - c.getD 0 := by
  cases c with
  | none => simp [deductField]
  | some a =>
    by_cases h : a = 0 <;> simp [deductField, h]

/-- Claim C1: `deductCost` is all-or-nothing across multiple kinds: for every
inventory and every cost mapping it returns `true` and subtracts every
specified kind's amount exactly when `hasEnough` holds, and otherwise returns
`false` and leaves every resource quantity unchanged. -/
theorem deductCost_atomic (inv : ResourceInventory) (c : ResourceCost) :
    (deductCost inv c).1 = hasEnough inv c ∧
      (deductCost inv c).2 =
        (if hasEnough inv c then subtractCostSpec inv c else inv) := by
  by_cases h : hasEnough inv c = true
  · refine ⟨by simp [deductCost, h], ?_⟩
    simp only [deductCost, h, if_true]
    simp [subtractCostSpec, deductField_eq_sub]
  · have h2 : hasEnough inv c = false := by
      cases hb : hasEnough inv c
      · rfl
      · exact absurd hb h
    refine ⟨by simp [deductCost, h2], ?_⟩
    simp [deductCost, h2]

theorem inv_get_set_same (inv : ResourceInventory) (t : ResourceType) (v : ℚ) :
    (inv.set t v).get t = v := by
  cases t <;> rfl

theorem inv_get_set_other (inv : ResourceInventory) (t t2 : ResourceType)
    (v : ℚ) (h : t2 ≠ t) : (inv.set t v).get t2 = inv.get t2 := by
  cases t <;> cases t2 <;> first
    | rfl
    | exact absurd rfl h

/-- Claim C2: for every resource kind and every amount at least zero,
`removeResource` succeeds exactly when the amount is at most the current
quantity; on success it subtracts from that kind only, and on failure every
quantity is unchanged. -/
theorem removeResource_spec (inv : ResourceInventory) (t : ResourceType)
    (amount : ℚ) (_hnn : 0 ≤ amount) :
    ((removeResource inv t amount).1 = true ↔ amount ≤ inv.get t) ∧
      ((removeResource inv t amount).1 = false →
        (removeResource inv t amount).2 = inv) ∧
      ((removeResource inv t amount).1 = true →
        (removeResource inv t amount).2.get t = inv.get t - amount ∧
        ∀ t2, t2 ≠ t →
          (removeResource inv t amount).2.get t2 = inv.get t2) := by
  by_cases h : inv.get t < amount
  · refine ⟨?_, ?_, ?_⟩
    · simp [removeResource, h]
    · intro _
      simp [removeResource, h]
    · intro hc
      simp [removeResource, h] at hc
  · refine ⟨?_, ?_, ?_⟩
    · simp [removeResource, h]
      exact not_lt.mp h
    · intro hc
      simp [removeResource, h] at hc
    · intro _
      constructor
      · simp only [removeResource, if_neg h]
        exact inv_get_set_same inv t _
      · intro t2 h2
        simp only [removeResource, if_neg h]
        exact inv_get_set_other inv t t2 _ h2

/-- Witness for C2 at a concrete input. -/
theorem removeResource_spec_witness :
    (0:ℚ) ≤ 30 ∧
      (((removeResource initialInventory .wood 30).1 = true ↔
          (30:ℚ) ≤ initialInventory.get .wood) ∧
        ((removeResource initialInventory .wood 30).1 = false →
          (removeResource initialInventory .wood 30).2 = initialInventory) ∧
        ((removeResource initialInventory .wood 30).1 = true →
          (removeResource initialInventory .wood 30).2.get .wood =
            initialInventory.get .wood - 30 ∧
          ∀ t2, t2 ≠ ResourceType.wood →
            (removeResource initialInventory .wood 30).2.get t2 =
              initialInventory.get t2)) :=
  ⟨by norm_num, removeResource_spec initialInventory .wood 30 (by norm_num)⟩

/-- Claim C3: `harvest` returns the minimum of the request and the remaining
amount and decreases the remaining amount by exactly that; a call on a
depleted node returns zero and changes nothing; and for every sequence of
non-negative requests the remaining amount never goes below zero. -/
theorem tree_harvest_spec :
    (∀ (t : TreeS) (a : ℚ), 0 ≤ a →
        (t.harvest a).1 = min a t.woodAmount ∧
        (t.harvest a).2.woodAmount = t.woodAmount - min a t.woodAmount) ∧
      (∀ (t : TreeS) (a : ℚ), 0 ≤ a → t.woodAmount = 0 →
        (t.harvest a).1 = 0 ∧ (t.harvest a).2 = t) ∧
      (∀ (reqs : List ℚ) (t : TreeS), 0 ≤ t.woodAmount →
        (∀ r ∈ reqs, 0 ≤ r) → 0 ≤ (harvestFold t reqs).woodAmount) := by
  refine ⟨fun t a _ => ⟨rfl, rfl⟩, ?_, ?_⟩
  · intro t a ha h0
    cases t with
    | mk p w m b =>
      simp only at h0
      subst h0
      constructor
      · simp [TreeS.harvest, min_eq_right ha]
      · simp [TreeS.harvest, min_eq_right ha]
  · intro reqs
    induction reqs with
    | nil => intro t ht _; exact ht
    | cons r rs ih =>
      intro t ht hall
      have hr : 0 ≤ r := hall r (List.mem_cons_self r rs)
      have hstep : 0 ≤ (t.harvest r).2.woodAmount := by
        simp only [TreeS.harvest]
        have hmin : min r t.woodAmount ≤ t.woodAmount := min_le_right r t.woodAmount
        simp only [sub_nonneg]
        exact hmin
      have hfold : harvestFold t (r :: rs) = harvestFold (t.harvest r).2 rs := rfl
      rw [hfold]
      exact ih (t.harvest r).2 hstep (fun x hx => hall x (List.mem_cons_of_mem r hx))

/-- Witness for C3 at concrete inputs. -/
theorem tree_harvest_spec_witness :
    ((0:ℚ) ≤ 7 ∧
      ((⟨⟨0,0,0⟩, 5, 5, false⟩ : TreeS).harvest 7).1 = min 7 5 ∧
      ((⟨⟨0,0,0⟩, 5, 5, false⟩ : TreeS).harvest 7).2.woodAmount = 5 - min 7 5) ∧
      0 ≤ (harvestFold ⟨⟨0,0,0⟩, 5, 5, false⟩ [3, 4, 2]).woodAmount := by
  constructor
  · exact ⟨by norm_num, tree_harvest_spec.1 ⟨⟨0,0,0⟩, 5, 5, false⟩ 7 (by norm_num)⟩
  · exact tree_harvest_spec.2.2 [3, 4, 2] ⟨⟨0,0,0⟩, 5, 5, false⟩ (by norm_num)
      (by intro r hr; fin_cases hr <;> norm_num)

/-! ## Worker invariants -/

theorem unitUpdate_fields (s : ℚ → ℚ) (dt : ℚ) (w : WorkerS) :
    (unitUpdate s dt w).state = w.state ∧
    (unitUpdate s dt w).targetResource = w.targetResource ∧
    (unitUpdate s dt w).assignedResource = w.assignedResource ∧
    (unitUpdate s dt w).homeBase = w.homeBase ∧
    (unitUpdate s dt w).carriedResources = w.carriedResources ∧
    (unitUpdate s dt w).harvestTimer = w.harvestTimer := by
  simp only [unitUpdate]
  repeat' split
  all_goals simp

theorem workerInv_fresh (p : Vec3) : workerInv (freshWorker p) := by
  unfold workerInv freshWorker
  simp

theorem stepMovingToResource_inv (s : ℚ → ℚ) (w : WorkerS) (st : TreeStore)
    (hs : w.state = WorkerState.movingToResource) (h : workerInv w) :
    workerInv (stepMovingToResource s w st).1 := by
  obtain ⟨h1, h2, h3, hf, hstn⟩ := h
  have hh : w.homeBase ≠ none := h2 (by rw [hs]; simp)
  unfold workerInv
  simp only [stepMovingToResource]
  repeat' split
  all_goals simp_all

theorem retargetTree_inv (s : ℚ → ℚ) (w : WorkerS) (nid : TreeId)
    (st : TreeStore) (hh : w.homeBase ≠ none)
    (hf : w.carriedResources.food = 0) (hstn : w.carriedResources.stone = 0) :
    workerInv (retargetTree s w nid st) := by
  unfold workerInv
  simp only [retargetTree, WorkerS.moveTo]
  simp_all

theorem stepHarvesting_inv (s : ℚ → ℚ) (dt : ℚ) (finder : Option TreeId)
    (w : WorkerS) (st : TreeStore)
    (hs : w.state = WorkerState.harvesting) (h : workerInv w) :
    workerInv (stepHarvesting s dt finder w st).1 := by
  obtain ⟨h1, h2, h3, hf, hstn⟩ := h
  have hh : w.homeBase ≠ none := h2 (by rw [hs]; simp)
  have htg : w.targetResource ≠ none := h3 hs
  unfold workerInv
  simp only [stepHarvesting]
  repeat' split
  all_goals simp_all [retargetTree, WorkerS.moveTo]

theorem stepReturningToBase_inv (s : ℚ → ℚ) (w : WorkerS) (st : TreeStore)
    (hs : w.state = WorkerState.returningToBase) (h : workerInv w) :
    workerInv (stepReturningToBase s w st).1 := by
  obtain ⟨h1, h2, h3, hf, hstn⟩ := h
  have hh : w.homeBase ≠ none := h2 (by rw [hs]; simp)
  unfold workerInv
  simp only [stepReturningToBase]
  repeat' split
  all_goals simp_all

theorem stepDelivering_inv (s : ℚ → ℚ) (finder : Option TreeId) (w : WorkerS)
    (st : TreeStore)
    (hs : w.state = WorkerState.delivering) (h : workerInv w) :
    workerInv (stepDelivering s finder w st).1 := by
  obtain ⟨h1, h2, h3, hf, hstn⟩ := h
  have hh : w.homeBase ≠ none := h2 (by rw [hs]; simp)
  unfold workerInv
  simp only [stepDelivering]
  repeat' split
  all_goals simp_all [retargetTree, WorkerS.moveTo]

theorem workerInv_unitUpdate (s : ℚ → ℚ) (dt : ℚ) (w : WorkerS)
    (h : workerInv w) : workerInv (unitUpdate s dt w) := by
  obtain ⟨e1, e2, e3, e4, e5, _⟩ := unitUpdate_fields s dt w
  obtain ⟨h1, h2, h3, h4⟩ := h
  refine ⟨?_, ?_, ?_, ?_⟩
  · rw [e1, e2, e3]; exact h1
  · rw [e1, e4]; exact h2
  · rw [e1, e2]; exact h3
  · rw [e5]; exact h4

theorem workerInv_step (s : ℚ → ℚ) (op : WOp) (p : WorkerS × TreeStore)
    (h : workerInv p.1) : workerInv (applyWOp s p op).1 := by
  obtain ⟨w, st⟩ := p
  cases op with
  | assign tid bp =>
    obtain ⟨h1, h2, h3, hf, hstn⟩ := h
    unfold workerInv
    simp only [applyWOp, harvestResourceOp, WorkerS.moveTo]
    simp_all
  | collect =>
    obtain ⟨h1, h2, h3, hf, hstn⟩ := h
    unfold workerInv
    simp only [applyWOp, collectCarriedResources]
    simp_all
  | stop =>
    obtain ⟨h1, h2, h3, hf, hstn⟩ := h
    unfold workerInv
    simp only [applyWOp, stopTaskOp]
    simp_all
  | update dt finder =>
    have hw1 : workerInv (unitUpdate s dt w) := workerInv_unitUpdate s dt w h
    show workerInv (workerUpdate s dt finder w st).1
    simp only [workerUpdate]
    split
    · exact hw1
    · exact stepMovingToResource_inv s _ st (by assumption) hw1
    · exact stepHarvesting_inv s dt finder _ st (by assumption) hw1
    · exact stepReturningToBase_inv s _ st (by assumption) hw1
    · exact stepDelivering_inv s finder _ st (by assumption) hw1

theorem workerInv_run (s : ℚ → ℚ) (ops : List WOp) :
    ∀ p : WorkerS × TreeStore, workerInv p.1 → workerInv (runWOps s p ops).1 := by
  induction ops with
  | nil => intro p h; exact h
  | cons op rest ih =>
    intro p h
    exact ih (applyWOp s p op) (workerInv_step s op p h)

/-! ## Theorems for claims C4, C5, C6, C7, C10 -/

/-- Claim C4 (refuting evaluation): after the reachable operation sequence of
`runC4` (one 3-second update while Harvesting a tree holding 30 wood), the
worker carries 15 wood — `MAX_CARRY_CAPACITY` is exceeded, because the
harvest tick adds `floor(timer * HARVEST_RATE)` without clamping to the
remaining carry capacity; the capacity comparison only triggers the
return-to-base transition afterwards. -/
theorem worker_carry_overflow :
    runC4.1.carriedResources.wood = 15 ∧
    MAX_CARRY_CAPACITY < runC4.1.carriedResources.wood ∧
    runC4.1.state = WorkerState.returningToBase := by
  norm_num [runC4, runWOps, applyWOp, workerUpdate, unitUpdate, stepMovingToResource,
    stepHarvesting, stepReturningToBase, stepDelivering, harvestResourceOp, retargetTree,
    approachPoint, deliveryPoint, WorkerS.moveTo, vnormalize, vadd, vsub, vscale, vdist,
    vlen, norm2, demoSqrt, setTree, TreeS.harvest, TreeS.isDepleted, freshWorker, treeAt,
    storeOf, basePos0, MAX_CARRY_CAPACITY, HARVEST_RATE, HARVEST_RANGE,
    BASE_DELIVERY_RANGE, WORKER_MOVE_SPEED]

/-- Claim C5 counterexample: in the Harvesting state with accumulator zero, an
advance of 1.3 seconds crosses the one-second threshold; the source resets
the accumulator to zero, not to the fractional remainder 3/10 the claim says
is retained. -/
theorem harvest_accumulator_counterexample :
    runC5mid.1.state = WorkerState.harvesting ∧
    runC5mid.1.harvestTimer = 0 ∧
    runC5.1.carriedResources.wood = 6 ∧
    runC5.1.harvestTimer = 0 ∧
    ¬ runC5.1.harvestTimer = 13/10 - 1 := by
  norm_num [runC5, runC5mid, runWOps, applyWOp, workerUpdate, unitUpdate,
    stepMovingToResource, stepHarvesting, stepReturningToBase, stepDelivering,
    harvestResourceOp, retargetTree, approachPoint, deliveryPoint, WorkerS.moveTo,
    vnormalize, vadd, vsub, vscale, vdist, vlen, norm2, demoSqrt, setTree,
    TreeS.harvest, TreeS.isDepleted, freshWorker, treeAt, storeOf, basePos0,
    MAX_CARRY_CAPACITY, HARVEST_RATE, HARVEST_RANGE, BASE_DELIVERY_RANGE,
    WORKER_MOVE_SPEED]

theorem workerUpdate_harvesting_eq (s : ℚ → ℚ) (dt : ℚ) (finder : Option TreeId)
    (w : WorkerS) (st : TreeStore) (hs : w.state = WorkerState.harvesting) :
    workerUpdate s dt finder w st =
      stepHarvesting s dt finder (unitUpdate s dt w) st := by
  have e1 : (unitUpdate s dt w).state = w.state := (unitUpdate_fields s dt w).1
  simp only [workerUpdate, e1, hs]

/-- Claim C5 (amended): while in the Harvesting state with a non-depleted
target, each advance adds dt to the harvest accumulator; when the accumulated
value reaches one second, the worker harvests
`min(floor(accumulator * HARVEST_RATE), remaining)` from the target resource,
adds the yield to carried wood, and resets the accumulator to zero entirely —
the fractional remainder is discarded, not retained; below one second it only
accumulates. -/
theorem harvest_accumulator_resets_to_zero (s : ℚ → ℚ) (dt : ℚ)
    (finder : Option TreeId) (w : WorkerS) (st : TreeStore) (tid : TreeId)
    (hs : w.state = WorkerState.harvesting)
    (ht : w.targetResource = some tid)
    (hlive : ¬ (st tid).woodAmount ≤ 0) :
    (1 ≤ w.harvestTimer + dt →
      (workerUpdate s dt finder w st).1.harvestTimer = 0 ∧
      (workerUpdate s dt finder w st).1.carriedResources.wood =
        w.carriedResources.wood +
          min ((⌊(w.harvestTimer + dt) * HARVEST_RATE⌋ : ℤ) : ℚ)
            (st tid).woodAmount ∧
      ((workerUpdate s dt finder w st).2 tid).woodAmount =
        (st tid).woodAmount -
          min ((⌊(w.harvestTimer + dt) * HARVEST_RATE⌋ : ℤ) : ℚ)
            (st tid).woodAmount) ∧
    (¬ 1 ≤ w.harvestTimer + dt →
      (workerUpdate s dt finder w st).1.harvestTimer = w.harvestTimer + dt ∧
      (workerUpdate s dt finder w st).1.carriedResources = w.carriedResources ∧
      (workerUpdate s dt finder w st).2 = st) := by
  obtain ⟨e1, e2, e3, e4, e5, e6⟩ := unitUpdate_fields s dt w
  rw [workerUpdate_harvesting_eq s dt finder w st hs]
  have hdep : (st tid).isDepleted = false := by
    simp [TreeS.isDepleted, hlive]
  simp only [stepHarvesting, e2, ht, e5, e6, hdep]
  constructor
  · intro hcross
    rw [if_neg (by simp), if_pos hcross]
    split
    · split
      · simp [WorkerS.moveTo, setTree, TreeS.harvest]
      · simp [setTree, TreeS.harvest]
    · simp [setTree, TreeS.harvest]
  · intro hn
    rw [if_neg (by simp), if_neg hn]
    exact ⟨rfl, rfl, rfl⟩

/-- Witness for the amended claim C5 at the concrete Harvesting state of
`runC5mid`: the 1.3-second advance crosses the threshold, harvests 6 wood and
resets the accumulator to zero. -/
theorem harvest_accumulator_resets_to_zero_witness :
    (1:ℚ) ≤ runC5mid.1.harvestTimer + 13/10 ∧
    (workerUpdate demoSqrt (13/10) none runC5mid.1 runC5mid.2).1.harvestTimer = 0 := by
  have hsim : runC5mid.1.state = WorkerState.harvesting ∧
      runC5mid.1.targetResource = some 0 ∧
      runC5mid.1.harvestTimer = 0 ∧ (runC5mid.2 0).woodAmount = 50 := by
    norm_num [runC5mid, runWOps, applyWOp, workerUpdate, unitUpdate,
      stepMovingToResource, stepHarvesting, stepReturningToBase, stepDelivering,
      harvestResourceOp, retargetTree, approachPoint, deliveryPoint, WorkerS.moveTo,
      vnormalize, vadd, vsub, vscale, vdist, vlen, norm2, demoSqrt, setTree,
      TreeS.harvest, TreeS.isDepleted, freshWorker, treeAt, storeOf, basePos0,
      MAX_CARRY_CAPACITY, HARVEST_RATE, HARVEST_RANGE, BASE_DELIVERY_RANGE,
      WORKER_MOVE_SPEED]
  obtain ⟨hs, ht, htm, hwd⟩ := hsim
  have hcross : (1:ℚ) ≤ runC5mid.1.harvestTimer + 13/10 := by
    rw [htm]; norm_num
  refine ⟨hcross, ?_⟩
  have h := harvest_accumulator_resets_to_zero demoSqrt (13/10) none
    runC5mid.1 runC5mid.2 0 hs ht (by rw [hwd]; norm_num)
  exact (h.1 hcross).1

/-- Claim C6 counterexample: after the reachable operation sequence of
`runC6` the worker's state is Harvesting while its target resource is
depleted — the harvest tick that drained the tree leaves the Harvesting state
untouched until the next update. -/
theorem harvesting_depleted_counterexample :
    runC6.1.state = WorkerState.harvesting ∧
    runC6.1.targetResource = some 0 ∧
    (runC6.2 0).woodAmount = 0 ∧
    (runC6.2 0).isDepleted = true := by
  norm_num [runC6, runWOps, applyWOp, workerUpdate, unitUpdate, stepMovingToResource,
    stepHarvesting, stepReturningToBase, stepDelivering, harvestResourceOp, retargetTree,
    approachPoint, deliveryPoint, WorkerS.moveTo, vnormalize, vadd, vsub, vscale, vdist,
    vlen, norm2, demoSqrt, setTree, TreeS.harvest, TreeS.isDepleted, freshWorker, treeAt,
    storeOf, basePos0, MAX_CARRY_CAPACITY, HARVEST_RATE, HARVEST_RANGE,
    BASE_DELIVERY_RANGE, WORKER_MOVE_SPEED]

/-- Claim C6 (amended): after every sequence of public worker operations from
a fresh worker, the Harvesting state implies the target reference is
non-null; the non-depletion half of the claim holds only up to a one-update
lag — any update performed in the Harvesting state with a depleted target
leaves the Harvesting state. -/
theorem harvesting_target_invariant (s : ℚ → ℚ) :
    (∀ (ops : List WOp) (p0 : Vec3) (st0 : TreeStore),
      (runWOps s (freshWorker p0, st0) ops).1.state = WorkerState.harvesting →
      (runWOps s (freshWorker p0, st0) ops).1.targetResource ≠ none) ∧
    (∀ (dt : ℚ) (finder : Option TreeId) (w : WorkerS) (st : TreeStore)
        (tid : TreeId),
      w.state = WorkerState.harvesting → w.targetResource = some tid →
      (st tid).isDepleted = true →
      (workerUpdate s dt finder w st).1.state ≠ WorkerState.harvesting) := by
  constructor
  · intro ops p0 st0 hs
    exact (workerInv_run s ops (freshWorker p0, st0) (workerInv_fresh p0)).2.2.1 hs
  · intro dt finder w st tid hs ht hdep
    obtain ⟨e1, e2, e3, e4, e5, e6⟩ := unitUpdate_fields s dt w
    rw [workerUpdate_harvesting_eq s dt finder w st hs]
    simp only [stepHarvesting, e2, ht, hdep]
    repeat' split
    all_goals simp_all [retargetTree, WorkerS.moveTo]

/-- Witness for the amended claim C6 at the concrete state of `runC6`. -/
theorem harvesting_target_invariant_witness :
    runC6.1.targetResource ≠ none ∧
    (workerUpdate demoSqrt 1 none runC6.1 runC6.2).1.state ≠
      WorkerState.harvesting := by
  have hsim : runC6.1.state = WorkerState.harvesting ∧
      runC6.1.targetResource = some 0 ∧ (runC6.2 0).isDepleted = true := by
    norm_num [runC6, runWOps, applyWOp, workerUpdate, unitUpdate,
      stepMovingToResource, stepHarvesting, stepReturningToBase, stepDelivering,
      harvestResourceOp, retargetTree, approachPoint, deliveryPoint, WorkerS.moveTo,
      vnormalize, vadd, vsub, vscale, vdist, vlen, norm2, demoSqrt, setTree,
      TreeS.harvest, TreeS.isDepleted, freshWorker, treeAt, storeOf, basePos0,
      MAX_CARRY_CAPACITY, HARVEST_RATE, HARVEST_RANGE, BASE_DELIVERY_RANGE,
      WORKER_MOVE_SPEED]
  obtain ⟨hs, ht, hdep⟩ := hsim
  constructor
  · exact (harvesting_target_invariant demoSqrt).1
      [WOp.assign 0 basePos0, WOp.update (2/5) none, WOp.update 1 none]
      ⟨0, 0, 0⟩ (storeOf 3) hs
  · exact (harvesting_target_invariant demoSqrt).2 1 none runC6.1 runC6.2 0 hs ht hdep

/-- Claim C7: after every sequence of public worker operations starting from
a freshly constructed worker, whenever the state is Idle both the target
resource and the assigned resource are null. -/
theorem idle_clears_targets (s : ℚ → ℚ) (ops : List WOp) (p0 : Vec3)
    (st0 : TreeStore)
    (h : (runWOps s (freshWorker p0, st0) ops).1.state = WorkerState.idle) :
    (runWOps s (freshWorker p0, st0) ops).1.targetResource = none ∧
    (runWOps s (freshWorker p0, st0) ops).1.assignedResource = none :=
  (workerInv_run s ops (freshWorker p0, st0) (workerInv_fresh p0)).1 h

/-- Witness for claim C7: a worker assigned a task and then stopped is idle
with both references cleared. -/
theorem idle_clears_targets_witness :
    (runWOps demoSqrt (freshWorker ⟨0, 0, 0⟩, storeOf 30)
        [WOp.assign 0 basePos0, WOp.stop]).1.targetResource = none ∧
    (runWOps demoSqrt (freshWorker ⟨0, 0, 0⟩, storeOf 30)
        [WOp.assign 0 basePos0, WOp.stop]).1.assignedResource = none :=
  idle_clears_targets demoSqrt [WOp.assign 0 basePos0, WOp.stop] ⟨0, 0, 0⟩
    (storeOf 30)
    (by norm_num [runWOps, applyWOp, harvestResourceOp, stopTaskOp, WorkerS.moveTo,
      approachPoint, vnormalize, vadd, vsub, vscale, vlen, norm2, demoSqrt,
      freshWorker, treeAt, storeOf, basePos0, setTree, HARVEST_RANGE])

/-- Claim C10: a worker only ever accumulates wood — after every sequence of
public operations from a fresh worker the carried food and stone quantities
are zero, and the mapping returned by `collectCarriedResources` likewise has
zero food and zero stone. -/
theorem worker_only_wood (s : ℚ → ℚ) (ops : List WOp) (p0 : Vec3)
    (st0 : TreeStore) :
    (runWOps s (freshWorker p0, st0) ops).1.carriedResources.food = 0 ∧
    (runWOps s (freshWorker p0, st0) ops).1.carriedResources.stone = 0 ∧
    (collectCarriedResources (runWOps s (freshWorker p0, st0) ops).1).1.food = 0 ∧
    (collectCarriedResources (runWOps s (freshWorker p0, st0) ops).1).1.stone = 0 := by
  have h := (workerInv_run s ops (freshWorker p0, st0) (workerInv_fresh p0)).2.2.2
  exact ⟨h.1, h.2, h.1, h.2⟩

theorem headReady_iff (hd : TrainingQueueItem) (t : List TrainingQueueItem) :
    (∃ current rest, hd :: t = current :: rest ∧
      current.totalTime ≤ current.progress) ↔ hd.totalTime ≤ hd.progress := by
  constructor
  · rintro ⟨c, r, heq, hc⟩
    obtain ⟨rfl, rfl⟩ : hd = c ∧ t = r := by
      injection heq with h1 h2
      exact ⟨h1, h2⟩
    exact hc
  · intro hc
    exact ⟨hd, t, rfl, hc⟩

theorem queueInv_fresh (p : Vec3) : queueInv (freshBase p) := by
  refine ⟨?_, ?_, ?_⟩
  · intro it hit
    simp [freshBase] at hit
  · intro it hit
    simp [freshBase] at hit
  · constructor
    · intro hc
      simp [freshBase] at hc
    · rintro ⟨c, r, heq, _⟩
      simp [freshBase] at heq

theorem queueInv_step (b : BaseS) (op : BOp) (h : queueInv b) :
    queueInv (applyBOp b op) := by
  obtain ⟨h1, h2, h3⟩ := h
  cases op with
  | train =>
    show queueInv (trainWorkerOp b)
    cases hq : b.trainingQueue with
    | nil =>
      have hr : b.workerReadyToSpawn = false := by
        cases hb : b.workerReadyToSpawn
        · rfl
        · obtain ⟨c, r, heq, _⟩ := h3.mp hb
          rw [hq] at heq
          cases heq
      refine ⟨?_, ?_, ?_⟩
      · intro it hit
        simp [trainWorkerOp, hq] at hit
      · intro it hit
        simp [trainWorkerOp, hq] at hit
        rw [hit]
      · rw [show (trainWorkerOp b).workerReadyToSpawn = false from hr]
        simp only [trainWorkerOp, hq, List.nil_append]
        rw [headReady_iff]
        simp [WORKER_TRAIN_TIME]
    | cons hd t =>
      refine ⟨?_, ?_, ?_⟩
      · intro it hit
        simp only [trainWorkerOp, hq, List.cons_append, List.tail_cons] at hit
        rcases List.mem_append.mp hit with hmem | hmem
        · exact h1 it (by rw [hq]; exact hmem)
        · simp at hmem
          rw [hmem]
      · intro it hit
        simp only [trainWorkerOp, hq, List.cons_append] at hit
        rcases List.mem_cons.mp hit with hmem | hmem
        · exact h2 it (by rw [hq, hmem]; exact List.mem_cons_self hd t)
        · rcases List.mem_append.mp hmem with hmem2 | hmem2
          · exact h2 it (by rw [hq]; exact List.mem_cons_of_mem hd hmem2)
          · simp at hmem2
            rw [hmem2]
      · show b.workerReadyToSpawn = true ↔ _
        rw [h3, hq]
        simp only [trainWorkerOp, hq, List.cons_append]
        rw [headReady_iff, headReady_iff]
  | update dt =>
    show queueInv (baseUpdate dt b)
    cases hq : b.trainingQueue with
    | nil =>
      have : baseUpdate dt b = b := by
        unfold baseUpdate
        rw [hq]
      rw [this]
      exact ⟨h1, h2, h3⟩
    | cons hd t =>
      cases hr : b.workerReadyToSpawn with
      | true =>
        have : baseUpdate dt b = b := by
          unfold baseUpdate
          rw [hq, hr]
        rw [this]
        exact ⟨h1, h2, h3⟩
      | false =>
        have hb : baseUpdate dt b =
            { b with trainingQueue := ⟨hd.progress + dt, hd.totalTime⟩ :: t,
                     workerReadyToSpawn :=
                       if hd.totalTime ≤ hd.progress + dt then true
                       else false } := by
          unfold baseUpdate
          rw [hq, hr]
        rw [hb]
        refine ⟨?_, ?_, ?_⟩
        · intro it hit
          exact h1 it (by rw [hq]; exact hit)
        · intro it hit
          rcases List.mem_cons.mp hit with hmem | hmem
          · rw [hmem]
            exact h2 hd (by rw [hq]; exact List.mem_cons_self hd t)
          · exact h2 it (by rw [hq]; exact List.mem_cons_of_mem hd hmem)
        · rw [headReady_iff]
          by_cases hc : hd.totalTime ≤ hd.progress + dt
          · simp [hc]
          · simp [hc]
  | spawn sp =>
    show queueInv ((spawnWorker b sp).1)
    refine ⟨?_, ?_, ?_⟩
    · intro it hit
      exact h1 it (List.mem_of_mem_tail hit)
    · intro it hit
      exact h2 it (List.mem_of_mem_tail (by exact hit))
    · constructor
      · intro hc
        cases hc
      · rintro ⟨c, r, heq, hc⟩
        have hmem : c ∈ b.trainingQueue.tail := by
          rw [show (spawnWorker b sp).1.trainingQueue = b.trainingQueue.tail
            from rfl] at heq
          rw [heq]
          exact List.mem_cons_self c r
        have hp : c.progress = 0 := h1 c hmem
        have htt : c.totalTime = WORKER_TRAIN_TIME :=
          h2 c (List.mem_of_mem_tail hmem)
        rw [hp, htt] at hc
        norm_num [WORKER_TRAIN_TIME] at hc

theorem queueInv_run (ops : List BOp) :
    ∀ b : BaseS, queueInv b → queueInv (runBOps b ops) := by
  induction ops with
  | nil => intro b h; exact h
  | cons op rest ih =>
    intro b h
    exact ih (applyBOp b op) (queueInv_step b op h)


/-! ## Theorems for claims C8 and C9 -/

/-- Claim C8 counterexample: calling `spawnWorker` while `hasWorkerReady()`
is false does not fail — it pops the half-trained head order (the queue
shrinks from one to zero orders) and returns a newly constructed worker. -/
theorem spawnWorker_unguarded_counterexample :
    hasWorkerReady cexBase = false ∧
    cexBase.trainingQueue.length = 1 ∧
    (spawnWorker cexBase ⟨0, 0, 0⟩).1.trainingQueue.length = 0 ∧
    (spawnWorker cexBase ⟨0, 0, 0⟩).2.isMoving = true := by
  norm_num [cexBase, baseUpdate, trainWorkerOp, freshBase, spawnWorker,
    hasWorkerReady, WORKER_TRAIN_TIME, WorkerS.moveTo, freshWorker]

/-- Claim C8 (amended): `spawnWorker` performs no readiness check — even when
`hasWorkerReady()` is false it pops the head order (if any), clears the ready
flag, and returns a newly constructed worker headed for the rally point;
callers must guard every call with `hasWorkerReady()` themselves. -/
theorem spawnWorker_pops_unconditionally (b : BaseS) (sp : Vec3)
    (_h : hasWorkerReady b = false) :
    (spawnWorker b sp).1.trainingQueue = b.trainingQueue.tail ∧
    (spawnWorker b sp).1.workerReadyToSpawn = false ∧
    (spawnWorker b sp).2.state = WorkerState.idle ∧
    (spawnWorker b sp).2.isMoving = true ∧
    (spawnWorker b sp).2.targetPosition = some b.rallyPoint :=
  ⟨rfl, rfl, rfl, rfl, rfl⟩

/-- Witness for the amended claim C8 at the concrete not-ready Base. -/
theorem spawnWorker_pops_unconditionally_witness :
    hasWorkerReady cexBase = false ∧
    (spawnWorker cexBase ⟨0, 0, 0⟩).1.trainingQueue =
      cexBase.trainingQueue.tail ∧
    (spawnWorker cexBase ⟨0, 0, 0⟩).1.workerReadyToSpawn = false := by
  have h : hasWorkerReady cexBase = false := by
    norm_num [cexBase, baseUpdate, trainWorkerOp, freshBase, hasWorkerReady,
      WORKER_TRAIN_TIME]
  have h2 := spawnWorker_pops_unconditionally cexBase ⟨0, 0, 0⟩ h
  exact ⟨h, h2.1, h2.2.1⟩

/-- Claim C9: for every sequence of enqueue, advance and spawn operations on
a fresh Base, only the head order accumulates elapsed time (later orders stay
at zero); the ready flag is set exactly when the head's progress has reached
its total time; while the flag is set an update changes nothing; a spawn pops
exactly the head order and clears the flag; and in the concrete scenario
(enqueue with total time 5, advance 3, advance 2) the Base reports a worker
ready and spawning shrinks the queue by exactly one. -/
theorem production_queue_invariants :
    (∀ (p0 : Vec3) (ops : List BOp), queueInv (runBOps (freshBase p0) ops)) ∧
    (∀ (dt : ℚ) (b : BaseS), b.workerReadyToSpawn = true →
      baseUpdate dt b = b) ∧
    (∀ (b : BaseS) (sp : Vec3),
      (spawnWorker b sp).1.trainingQueue = b.trainingQueue.tail ∧
      (spawnWorker b sp).1.workerReadyToSpawn = false) ∧
    (hasWorkerReady
        (baseUpdate 2 (baseUpdate 3 (trainWorkerOp (freshBase ⟨0, 0, 0⟩)))) =
      true ∧
    (baseUpdate 2 (baseUpdate 3 (trainWorkerOp
        (freshBase ⟨0, 0, 0⟩)))).trainingQueue.length = 1 ∧
    (spawnWorker
        (baseUpdate 2 (baseUpdate 3 (trainWorkerOp (freshBase ⟨0, 0, 0⟩))))
        ⟨0, 0, 0⟩).1.trainingQueue.length = 0) := by
  refine ⟨?_, ?_, ?_, ?_⟩
  · intro p0 ops
    exact queueInv_run ops (freshBase p0) (queueInv_fresh p0)
  · intro dt b hr
    obtain ⟨q, r, p, rp⟩ := b
    simp only at hr
    subst hr
    cases q <;> rfl
  · intro b sp
    exact ⟨rfl, rfl⟩
  · norm_num [baseUpdate, trainWorkerOp, freshBase, spawnWorker, hasWorkerReady,
      WORKER_TRAIN_TIME]

/-- Witness for claim C9: the invariant evaluated after the concrete scenario
sequence, and the frozen-while-ready step at a concrete ready Base. -/
theorem production_queue_invariants_witness :
    queueInv (runBOps (freshBase ⟨0, 0, 0⟩)
      [BOp.train, BOp.update 3, BOp.update 2]) ∧
    baseUpdate 1 (⟨[⟨5, 5⟩], true, ⟨0, 0, 0⟩, ⟨8, 0, 0⟩⟩ : BaseS) =
      (⟨[⟨5, 5⟩], true, ⟨0, 0, 0⟩, ⟨8, 0, 0⟩⟩ : BaseS) := by
  constructor
  · exact production_queue_invariants.1 ⟨0, 0, 0⟩
      [BOp.train, BOp.update 3, BOp.update 2]
  · exact production_queue_invariants.2.1 1 _ rfl
